import Mathlib

/-!
Shallow embedding of the production-shortage planning calculator
(`app.py` and `app/reference_data.py`).

Quantities (pieces, pack sizes, rates) are embedded as integers `ℤ`;
dates as naturals `ℕ`; nullable spreadsheet cells as `Option`.
Pandas' multi-key `sort_values` (which uses a stable lexicographic sort
for multiple keys) is modelled by Mathlib's stable `List.insertionSort`.
Python's insertion-ordered dict grouping is modelled by `firstKeys` /
`groupParts`.
-/

/-! ### String utilities (pandas `.str.strip()` / `.str.upper()`, `in` substring test) -/

/-- Characters of a string with leading and trailing whitespace removed,
modelling Python `str.strip()`. -/
def stripChars (l : List Char) : List Char :=
  ((l.dropWhile Char.isWhitespace).reverse.dropWhile Char.isWhitespace).reverse

/-- Python `str.strip()` on a string. -/
def pyStrip (s : String) : String := ⟨stripChars s.data⟩

/-- Python `str.upper()` on a string. -/
def pyUpper (s : String) : String := ⟨s.data.map Char.toUpper⟩

/-- Whether `needle` occurs at the head of `hay`. -/
def headMatches : List Char → List Char → Bool
  | [], _ => true
  | _ :: _, [] => false
  | a :: as, b :: bs => a == b && headMatches as bs

/-- Whether `needle` occurs contiguously anywhere in `hay`. -/
def containsSeq (needle : List Char) : List Char → Bool
  | [] => headMatches needle []
  | b :: bs => headMatches needle (b :: bs) || containsSeq needle bs

/-- Python's `needle in hay` substring test. -/
def containsSub (hay needle : String) : Bool := containsSeq needle.data hay.data

/-! ### `customer_priority` (app.py lines 234-245) -/

/-- Model of `customer_priority(customer)`: 999 for missing/empty customer, else the
customer name is uppercased and stripped and checked for the substrings
"FORD" (priority 0) and "MAGNA" (priority 1); any other customer gets 2. -/
def customer_priority (c : Option String) : ℕ :=
  match c with
  | none => 999
  | some s =>
    if s = "" then 999
    else
      let u := pyStrip (pyUpper s)
      if containsSub u "FORD" then 0
      else if containsSub u "MAGNA" then 1
      else 2

/-! ### Reference table loading (`load_ref`, app.py lines 250-284) -/

/-- A raw row of the local reference CSV (`partno`, `stdpack_min`, `stdpack_max`);
unparseable numeric cells are `none`. -/
structure RefRow where
  partno : String
  stdpack_min : Option ℤ
  stdpack_max : Option ℤ
  deriving DecidableEq

/-- A processed reference row after `load_ref`. -/
structure RefParsed where
  partno : String
  pack : Option ℤ
  pack_faltante : Bool
  deriving DecidableEq

/-- The `notna() & (> 0)` validity test used by `load_ref`'s `np.where` and by
`compute_shortages`'s `valid_pack`. -/
def validOpt : Option ℤ → Bool
  | none => false
  | some x => decide (0 < x)

/-- Derivation of `pack` in `load_ref`: `stdpack_max` if valid (non-null and > 0),
else `stdpack_min` if valid, else null. -/
def derivePack (mn mx : Option ℤ) : Option ℤ :=
  if validOpt mx then mx else if validOpt mn then mn else none

/-- Row processing of `load_ref`: `partno` is string-converted and stripped
(`df['partno'].astype(str).str.strip()`), `pack` is derived from the std-pack
columns, and `pack_faltante` marks a missing pack. -/
def load_ref (rows : List RefRow) : List RefParsed :=
  rows.map fun r =>
    { partno := pyStrip r.partno
      pack := derivePack r.stdpack_min r.stdpack_max
      pack_faltante := (derivePack r.stdpack_min r.stdpack_max).isNone }

/-! ### Demand (PRP) table loading (`load_prp`, app.py lines 287-321) and
the per-part inventory aggregation of `process_data` (app.py lines 382-383) -/

/-- A raw demand-feed row restricted to the fields the modelled claims need:
the part-number column and the finished-goods inventory column
(numeric-coerced, so unparseable cells are `none`). -/
structure PrpRow where
  partNo : String
  invFG : Option ℤ
  deriving DecidableEq

/-- Part-number normalization of `load_prp`:
`df[part_col] = df[part_col].astype(str).str.strip()`. -/
def load_prp (rows : List PrpRow) : List PrpRow :=
  rows.map fun r => { r with partNo := pyStrip r.partNo }

/-- Model of `prp_filtered.groupby(part_col)[inv_fg_col].first()`: pandas `GroupBy.first`
returns the first non-null value of the group (it skips nulls), or null if the
group has no non-null value. -/
def invfg_by_part (rows : List PrpRow) (p : String) : Option ℤ :=
  ((rows.filter fun r => decide (r.partNo = p)).filterMap fun r => r.invFG).head?

/-! ### Shortage projection (`compute_shortages`, app.py lines 476-587) -/

/-- One aggregated demand entry: a (date, ordered pieces) pair for some part. -/
structure DemandEntry where
  date : ℕ
  qty : ℤ
  deriving DecidableEq

/-- The per-part baseline row of `base_df` consumed by `compute_shortages`:
on-hand finished-goods inventory, derived pack, rate, customer, description. -/
structure PartInfo where
  partNo : String
  invFG : ℤ
  pack : Option ℤ
  rate : ℤ
  cliente : Option String
  descripcion : String
  deriving DecidableEq

/-- One emitted shortage record (`shortage_row` dict in `compute_shortages`). -/
structure ShortageRow where
  partNo : String
  fechaEmbarque : ℕ
  inventarioActual : ℤ
  demandaPzs : ℤ
  faltantePzs : ℤ
  pack : Option ℤ
  contenedores : Option ℤ
  cliente : Option String
  descripcion : String
  rate : ℤ
  capacidadTurnoCont : ℤ
  esPrimerFaltante : Bool
  siguienteEmbarque : Bool
  deriving DecidableEq

/-- Integer form of `math.ceil(s / p)` for `p > 0`, expressed with Euclidean
division (for `p > 0`, `Int.ediv` is floor division, and
`ceil(s/p) = -floor(-s/p)`). `intCeilDiv_eq_ceil` below proves this equals
`⌈(s : ℚ) / p⌉`. -/
def intCeilDiv (s p : ℤ) : ℤ := -((-s).ediv p)

/-- Model of `Contenedores_a_producir`: `np.nan` (here `none`) when pack is null or
non-positive, else `math.ceil(shortage / pack)` (app.py lines 540-543). -/
def containersFor (pack : Option ℤ) (s : ℤ) : Option ℤ :=
  match pack with
  | none => none
  | some p => if p ≤ 0 then none else some (intCeilDiv s p)

/-- Model of `Capacidad_turno_cont`: 0 when pack invalid, else
`math.floor((rate / 100 * 22.5) / pack)`; with integer rate this is
`(rate * 45) / (200 * pack)` in floor division (22.5 = 45/2). -/
def capacityCont (info : PartInfo) : ℤ :=
  match info.pack with
  | none => 0
  | some p => if 0 < p then (info.rate * 45).ediv (200 * p) else 0

/-- The shortage record appended for a shipment with positive shortage `s`
while the running balance before the shipment is `inv` (app.py lines 546-560). -/
def mkShortageRow (info : PartInfo) (e : DemandEntry) (inv s : ℤ) (first : Bool) :
    ShortageRow :=
  { partNo := info.partNo
    fechaEmbarque := e.date
    inventarioActual := inv
    demandaPzs := e.qty
    faltantePzs := s
    pack := info.pack
    contenedores := containersFor info.pack s
    cliente := info.cliente
    descripcion := info.descripcion
    rate := info.rate
    capacidadTurnoCont := capacityCont info
    esPrimerFaltante := first
    siguienteEmbarque := !first }

/-- The per-part loop body of `compute_shortages` (app.py lines 530-571):
walk the part's demand entries with a running balance; on a positive shortage
emit one record and reset the balance to 0, otherwise decrement the balance. -/
def processPart (info : PartInfo) : List DemandEntry → ℤ → Bool → List ShortageRow
  | [], _, _ => []
  | e :: rest, b, f =>
    if 0 < max 0 (e.qty - b) then
      mkShortageRow info e b (max 0 (e.qty - b)) f :: processPart info rest 0 false
    else
      processPart info rest (b - e.qty) f

/-- One balance update of the loop: reset to 0 after a shortage, else subtract
the demand. -/
def balanceStep (b q : ℤ) : ℤ := if 0 < max 0 (q - b) then 0 else b - q

/-- The successive values of the running balance (`inventory` variable):
initial value followed by the balance after each shipment. -/
def balances (b : ℤ) (ds : List DemandEntry) : List ℤ :=
  ds.scanl (fun acc e => balanceStep acc e.qty) b

/-- The demand entries of part `p`, in feed order. -/
def entriesOf (p : String) (l : List (String × DemandEntry)) : List DemandEntry :=
  (l.filter fun x => decide (x.1 = p)).map Prod.snd

/-- Helper for `firstKeys`: keys not yet seen, in order of first appearance. -/
def firstKeysAux (seen : List String) : List String → List String
  | [] => []
  | p :: rest =>
    if p ∈ seen then firstKeysAux seen rest else p :: firstKeysAux (p :: seen) rest

/-- The distinct keys of a list in order of first appearance, modelling both
Python's insertion-ordered dict keys (`part_grouped_demand`) and pandas
`Series.unique()`. -/
def firstKeys (l : List String) : List String := firstKeysAux [] l

/-- Model of `part_grouped_demand` (app.py lines 496-505): group the date-sorted demand
rows by part number, parts in first-appearance order, each part's entries in
feed order. -/
def groupParts (l : List (String × DemandEntry)) : List (String × List DemandEntry) :=
  (firstKeys (l.map Prod.fst)).map fun q => (q, entriesOf q l)

/-- Model of the `current_inventory` dict built by comprehension over `base_df` (app.py
line 490): for a duplicated part the comprehension keeps the last row's value. -/
def currentInventory (base : List PartInfo) (p : String) : Option ℤ :=
  ((base.filter fun r => decide (r.partNo = p)).getLast?).map fun r => r.invFG

/-- Date order on demand rows, used by `demand_df.sort_values(by='Fecha')`. -/
def demandDateRel (a b : String × DemandEntry) : Prop := a.2.date ≤ b.2.date

instance : DecidableRel demandDateRel :=
  fun a b => inferInstanceAs (Decidable (a.2.date ≤ b.2.date))

instance : IsTotal (String × DemandEntry) demandDateRel :=
  ⟨fun a b => Nat.le_total a.2.date b.2.date⟩

instance : IsTrans (String × DemandEntry) demandDateRel :=
  ⟨fun _ _ _ h1 h2 => Nat.le_trans h1 h2⟩

/-- Model of `demand_df.sort_values(by='Fecha')` (app.py line 486); the
aggregated feed has at most one row per (part, date), so the order among
equal-date rows of one part is not observable. -/
def sortDemand (demand : List (String × DemandEntry)) : List (String × DemandEntry) :=
  List.insertionSort demandDateRel demand

/-- The body of the outer loop of `compute_shortages` for one part (app.py
lines 508-571): skip the part when it is absent from `current_inventory` or
from `base_df`; otherwise run the replay starting from the part's inventory
with the first-shortage flag set. -/
def partShortages (base : List PartInfo) (q : String) (ds : List DemandEntry) :
    List ShortageRow :=
  match currentInventory base q, base.find? fun r => decide (r.partNo = q) with
  | some inv, some info => processPart info ds inv true
  | _, _ => []

/-- Model of `compute_shortages(base_df, demand_df)` (app.py lines 476-587): sort the
demand chronologically, group by part, and run the per-part replay with the
part's baseline info and dict inventory. (The post-hoc capacity-capped column
is not consumed by any modelled claim and is omitted.) -/
def compute_shortages (base : List PartInfo) (demand : List (String × DemandEntry)) :
    List ShortageRow :=
  (groupParts (sortDemand demand)).flatMap fun g => partShortages base g.1 g.2

/-! ### Priority sequencing (`build_priority`, app.py lines 589-624) -/

/-- Index of the first occurrence of `p` (the rank stored in the
`part_priority` dict built by `enumerate`). -/
def idxOf (p : String) : List String → ℕ
  | [] => 0
  | q :: rest => if q = p then 0 else idxOf p rest + 1

/-- Model of `part_priority[p]`: rank of `p` by first appearance among the event rows'
part numbers (app.py lines 603-607). -/
def partRank (rows : List ShortageRow) (p : String) : ℕ :=
  idxOf p (firstKeys (rows.map fun r => r.partNo))

/-- The four sort keys of `build_priority`'s `sort_values`, encoded so that
ascending lexicographic order realizes
`ascending=[False, True, True, True]`: the descending boolean
`Es_primer_faltante` becomes `0` for `True` and `1` for `False`. -/
def prioKey (rows : List ShortageRow) (r : ShortageRow) : ℕ × ℕ × ℕ × ℕ :=
  (if r.esPrimerFaltante then 0 else 1,
   partRank rows r.partNo,
   customer_priority r.cliente,
   r.fechaEmbarque)

/-- Lexicographic order on the 4-tuple of sort keys. -/
def keyLE (x y : ℕ × ℕ × ℕ × ℕ) : Prop :=
  x.1 < y.1 ∨ (x.1 = y.1 ∧
    (x.2.1 < y.2.1 ∨ (x.2.1 = y.2.1 ∧
      (x.2.2.1 < y.2.2.1 ∨ (x.2.2.1 = y.2.2.1 ∧ x.2.2.2 ≤ y.2.2.2)))))

instance : DecidableRel keyLE :=
  fun x y => inferInstanceAs (Decidable (x.1 < y.1 ∨ (x.1 = y.1 ∧
    (x.2.1 < y.2.1 ∨ (x.2.1 = y.2.1 ∧
      (x.2.2.1 < y.2.2.1 ∨ (x.2.2.1 = y.2.2.1 ∧ x.2.2.2 ≤ y.2.2.2)))))))

/-- The row order used by `build_priority`'s `sort_values` call. -/
def prioRel (rows : List ShortageRow) (a b : ShortageRow) : Prop :=
  keyLE (prioKey rows a) (prioKey rows b)

instance (rows : List ShortageRow) : DecidableRel (prioRel rows) :=
  fun a b => inferInstanceAs (Decidable (keyLE (prioKey rows a) (prioKey rows b)))

theorem keyLE_refl (x : ℕ × ℕ × ℕ × ℕ) : keyLE x x := by
  unfold keyLE; omega

theorem keyLE_total (x y : ℕ × ℕ × ℕ × ℕ) : keyLE x y ∨ keyLE y x := by
  unfold keyLE; omega

theorem keyLE_trans {x y z : ℕ × ℕ × ℕ × ℕ} (h1 : keyLE x y) (h2 : keyLE y z) :
    keyLE x z := by
  unfold keyLE at h1 h2 ⊢; omega

instance (rows : List ShortageRow) : IsTotal ShortageRow (prioRel rows) :=
  ⟨fun a b => keyLE_total (prioKey rows a) (prioKey rows b)⟩

instance (rows : List ShortageRow) : IsTrans ShortageRow (prioRel rows) :=
  ⟨fun _ _ _ h1 h2 => keyLE_trans h1 h2⟩

/-- Model of `build_priority(shortage_df)` (app.py lines 589-624): rank parts by first
appearance, rank customers by `customer_priority`, then sort all rows by
(`Es_primer_faltante` desc, `part_priority` asc, `cliente_priority` asc,
`Fecha_Embarque` asc). pandas' multi-key `sort_values` is a stable
lexicographic sort, modelled by the stable `List.insertionSort`. The code's
fallback sort for a frame without the `Es_primer_faltante` column cannot
trigger on `compute_shortages` output, whose rows always carry it, and is not
modelled. -/
def build_priority (rows : List ShortageRow) : List ShortageRow :=
  List.insertionSort (prioRel rows) rows

/-! ### Reference-data CRUD store (`app/reference_data.py`) -/

/-- A row of the reference CRUD store. -/
structure RefDataRow where
  part_number : String
  std_pack : ℤ
  cycle_time : ℤ
  color : String
  description : String
  machine : String
  location : String
  notes : String
  deriving DecidableEq

/-- The in-memory state of the `ReferenceData` store (its `data` frame). -/
structure ReferenceData where
  data : List RefDataRow
  deriving DecidableEq

/-- Model of `ReferenceData.add_part` (reference_data.py lines 87-106): concatenate the
new row at the end and return `True`, with no uniqueness check. -/
def ReferenceData.add_part (s : ReferenceData) (r : RefDataRow) : Bool × ReferenceData :=
  (true, ⟨s.data ++ [r]⟩)

/-- Model of `ReferenceData.get_part` (reference_data.py lines 134-139): `None` when no
row matches, else the first matching row (`.iloc[0]`). -/
def ReferenceData.get_part (s : ReferenceData) (p : String) : Option RefDataRow :=
  s.data.find? fun r => decide (r.part_number = p)

/-! ### Arithmetic lemmas about the container rounding -/

theorem intCeilDiv_mul (s p : ℤ) : intCeilDiv s p * p = s + (-s).emod p := by
  have h1 := Int.ediv_add_emod (-s) p
  unfold intCeilDiv
  linear_combination -h1

theorem intCeilDiv_mul_ge (s : ℤ) {p : ℤ} (hp : 0 < p) : s ≤ intCeilDiv s p * p := by
  have h2 : 0 ≤ (-s).emod p := Int.emod_nonneg (-s) hp.ne'
  rw [intCeilDiv_mul]
  omega

theorem intCeilDiv_eq_ceil (s : ℤ) {p : ℤ} (hp : 0 < p) :
    (intCeilDiv s p : ℤ) = ⌈(s : ℚ) / (p : ℚ)⌉ := by
  have hq : (0 : ℚ) < (p : ℚ) := by exact_mod_cast hp
  rw [eq_comm, Int.ceil_eq_iff]
  constructor
  · rw [lt_div_iff₀ hq]
    have h3 : (-s).emod p < p := Int.emod_lt_of_pos (-s) hp
    have h4 := intCeilDiv_mul s p
    have : (intCeilDiv s p - 1) * p < s := by nlinarith
    exact_mod_cast this
  · rw [div_le_iff₀ hq]
    exact_mod_cast intCeilDiv_mul_ge s hp

theorem containersFor_of_invalid {pack : Option ℤ} (s : ℤ) (h : validOpt pack = false) :
    containersFor pack s = none := by
  cases pack with
  | none => rfl
  | some p =>
    simp only [validOpt, decide_eq_false_iff_not, not_lt] at h
    simp [containersFor, h]

theorem containersFor_of_pos {p : ℤ} (s : ℤ) (hp : 0 < p) :
    containersFor (some p) s = some (intCeilDiv s p) := by
  simp [containersFor, not_le.2 hp]

/-! ### Lemmas about the per-part replay loop -/

theorem mem_processPart {info : PartInfo} {ds : List DemandEntry} {b : ℤ} {f : Bool}
    {ev : ShortageRow} (h : ev ∈ processPart info ds b f) :
    ev.partNo = info.partNo ∧ ev.pack = info.pack ∧
      ev.contenedores = containersFor info.pack ev.faltantePzs := by
  induction ds generalizing b f with
  | nil => simp [processPart] at h
  | cons e rest ih =>
    rw [processPart] at h
    split at h
    · rcases List.mem_cons.1 h with rfl | h2
      · exact ⟨rfl, rfl, rfl⟩
      · exact ih h2
    · exact ih h

theorem processPart_flag_of_false {info : PartInfo} {ds : List DemandEntry} {b : ℤ}
    {ev : ShortageRow} (h : ev ∈ processPart info ds b false) :
    ev.esPrimerFaltante = false := by
  induction ds generalizing b with
  | nil => simp [processPart] at h
  | cons e rest ih =>
    rw [processPart] at h
    split at h
    · rcases List.mem_cons.1 h with rfl | h2
      · rfl
      · exact ih h2
    · exact ih h

theorem processPart_true_head (info : PartInfo) (ds : List DemandEntry) (b : ℤ) :
    processPart info ds b true = [] ∨
      ∃ ev tail, processPart info ds b true = ev :: tail ∧ ev.esPrimerFaltante = true ∧
        ∀ x ∈ tail, x.esPrimerFaltante = false := by
  induction ds generalizing b with
  | nil => exact Or.inl rfl
  | cons e rest ih =>
    rw [processPart]
    split
    · exact Or.inr ⟨_, _, rfl, rfl, fun x hx => processPart_flag_of_false hx⟩
    · exact ih _

theorem processPart_countP_flag (info : PartInfo) (ds : List DemandEntry) (b : ℤ) :
    (processPart info ds b true).countP (fun ev => ev.esPrimerFaltante) ≤ 1 := by
  rcases processPart_true_head info ds b with h | ⟨ev, tail, h, hev, htail⟩
  · simp [h]
  · rw [h, List.countP_cons]
    have h0 : tail.countP (fun ev => ev.esPrimerFaltante) = 0 :=
      List.countP_eq_zero.2 fun x hx => by simp [htail x hx]
    simp [h0, hev]

theorem processPart_dates_sublist (info : PartInfo) (ds : List DemandEntry) (b : ℤ) (f : Bool) :
    ((processPart info ds b f).map fun ev => ev.fechaEmbarque).Sublist
      (ds.map fun e => e.date) := by
  induction ds generalizing b f with
  | nil => simp [processPart]
  | cons e rest ih =>
    rw [processPart]
    split
    · simpa [mkShortageRow] using (ih 0 false).cons₂ e.date
    · exact (ih (b - e.qty) f).cons e.date

theorem processPart_dates_pairwise {info : PartInfo} {ds : List DemandEntry} {b : ℤ} {f : Bool}
    (h : ds.Pairwise fun x y => x.date ≤ y.date) :
    (processPart info ds b f).Pairwise fun x y => x.fechaEmbarque ≤ y.fechaEmbarque := by
  have h1 : (ds.map fun e => e.date).Pairwise (· ≤ ·) := List.pairwise_map.2 h
  exact List.pairwise_map.1 (h1.sublist (processPart_dates_sublist info ds b f))

theorem balanceStep_of_pos {b q : ℤ} (h : 0 < max 0 (q - b)) : balanceStep b q = 0 :=
  if_pos h

theorem balanceStep_of_not {b q : ℤ} (h : ¬ 0 < max 0 (q - b)) : balanceStep b q = b - q :=
  if_neg h

theorem processPart_cons_balanceStep (info : PartInfo) (e : DemandEntry)
    (rest : List DemandEntry) (b : ℤ) (f : Bool) :
    processPart info (e :: rest) b f =
      if 0 < max 0 (e.qty - b) then
        mkShortageRow info e b (max 0 (e.qty - b)) f ::
          processPart info rest (balanceStep b e.qty) false
      else processPart info rest (balanceStep b e.qty) f := by
  rw [processPart]
  split_ifs with h
  · rw [balanceStep_of_pos h]
  · rw [balanceStep_of_not h]

theorem balances_nil (b : ℤ) : balances b [] = [b] := rfl

theorem balances_cons (b : ℤ) (e : DemandEntry) (rest : List DemandEntry) :
    balances b (e :: rest) = b :: balances (balanceStep b e.qty) rest := rfl

theorem balances_nonneg {b : ℤ} {ds : List DemandEntry} (hb : 0 ≤ b)
    (hq : ∀ d ∈ ds, 0 ≤ d.qty) : ∀ x ∈ balances b ds, 0 ≤ x := by
  induction ds generalizing b with
  | nil =>
    intro x hx
    rw [balances_nil, List.mem_singleton] at hx
    omega
  | cons e rest ih =>
    intro x hx
    rw [balances_cons] at hx
    rcases List.mem_cons.1 hx with rfl | hx2
    · exact hb
    · refine ih ?_ (fun d hd => hq d (List.mem_cons_of_mem _ hd)) x hx2
      have he := hq e (List.mem_cons_self ..)
      unfold balanceStep
      split_ifs with h
      · omega
      · omega

/-! ### Lemmas about grouping by part -/

theorem mem_firstKeysAux {x : String} {seen l : List String} :
    x ∈ firstKeysAux seen l ↔ x ∈ l ∧ x ∉ seen := by
  induction l generalizing seen with
  | nil => simp [firstKeysAux]
  | cons p rest ih =>
    rw [firstKeysAux]
    by_cases hxp : x = p
    · subst hxp
      split_ifs with hp <;> simp [ih, hp]
    · split_ifs with hp <;> simp [ih, hxp, List.mem_cons]

theorem nodup_firstKeysAux {seen l : List String} : (firstKeysAux seen l).Nodup := by
  induction l generalizing seen with
  | nil => simp [firstKeysAux]
  | cons p rest ih =>
    rw [firstKeysAux]
    split_ifs with hp
    · exact ih
    · exact List.nodup_cons.2
        ⟨fun h => (mem_firstKeysAux.1 h).2 (List.mem_cons_self p seen), ih⟩

theorem mem_firstKeys {x : String} {l : List String} : x ∈ firstKeys l ↔ x ∈ l := by
  simp [firstKeys, mem_firstKeysAux]

theorem nodup_firstKeys (l : List String) : (firstKeys l).Nodup := nodup_firstKeysAux

theorem filter_flatMap_eq {α β : Type} (l : List α) (g : α → List β) (q : β → Bool) :
    (l.flatMap g).filter q = l.flatMap fun a => (g a).filter q := by
  induction l with
  | nil => rfl
  | cons a l ih => simp [List.flatMap_cons, List.filter_append, ih]

theorem flatMap_eq_nil_of {α β : Type} {l : List α} {g : α → List β}
    (h : ∀ a ∈ l, g a = []) : l.flatMap g = [] := by
  induction l with
  | nil => rfl
  | cons a l ih =>
    rw [List.flatMap_cons, h a (List.mem_cons_self ..),
      ih fun x hx => h x (List.mem_cons_of_mem _ hx)]
    rfl

theorem flatMap_groups (l : List (String × DemandEntry))
    (F : String → List DemandEntry → List ShortageRow) (p : String) (keys : List String)
    (hnd : keys.Nodup)
    (hother : ∀ q, q ≠ p →
      ((F q (entriesOf q l)).filter fun ev => decide (ev.partNo = p)) = []) :
    (((keys.map fun q => (q, entriesOf q l)).flatMap fun g => F g.1 g.2).filter
        fun ev => decide (ev.partNo = p)) =
      if p ∈ keys then (F p (entriesOf p l)).filter fun ev => decide (ev.partNo = p)
      else [] := by
  induction keys with
  | nil => simp
  | cons q ks ih =>
    rcases List.nodup_cons.1 hnd with ⟨hq, hnd2⟩
    simp only [List.map_cons, List.flatMap_cons, List.filter_append]
    by_cases hqp : q = p
    · subst hqp
      have htail : (((ks.map fun q => (q, entriesOf q l)).flatMap fun g => F g.1 g.2).filter
          fun ev => decide (ev.partNo = q)) = [] := by
        rw [filter_flatMap_eq]
        refine flatMap_eq_nil_of fun x hx => ?_
        rcases List.mem_map.1 hx with ⟨q2, hq2, rfl⟩
        exact hother q2 fun hq2p => hq (hq2p ▸ hq2)
      rw [htail]
      simp
    · rw [hother q hqp, ih hnd2]
      by_cases hpk : p ∈ ks <;> simp [hpk, List.mem_cons, Ne.symm hqp]

theorem entriesOf_sorted (p : String) (demand : List (String × DemandEntry)) :
    (entriesOf p (sortDemand demand)).Pairwise fun a b => a.date ≤ b.date := by
  have hs : (sortDemand demand).Pairwise demandDateRel := List.sorted_insertionSort _ _
  have hf : ((sortDemand demand).filter fun x => decide (x.1 = p)).Pairwise demandDateRel :=
    hs.sublist ((sortDemand demand).filter_sublist)
  exact List.pairwise_map.2 hf

theorem entriesOf_eq_nil {p : String} {l : List (String × DemandEntry)}
    (h : p ∉ l.map Prod.fst) : entriesOf p l = [] := by
  unfold entriesOf
  have h0 : (l.filter fun x => decide (x.1 = p)) = [] := by
    refine List.filter_eq_nil_iff.2 fun x hx => ?_
    simp only [decide_eq_true_eq]
    intro hxp
    exact h (hxp ▸ List.mem_map_of_mem Prod.fst hx)
  rw [h0]
  rfl

theorem find?_partNo_eq {base : List PartInfo} {q : String} {info : PartInfo}
    (h : (base.find? fun r => decide (r.partNo = q)) = some info) : info.partNo = q := by
  have h1 := List.find?_some h
  simp only [decide_eq_true_eq] at h1
  exact h1

theorem partShortages_eq (base : List PartInfo) (q : String) (ds : List DemandEntry) :
    partShortages base q ds =
      match currentInventory base q, base.find? fun r => decide (r.partNo = q) with
      | some inv, some info => processPart info ds inv true
      | _, _ => [] := rfl

theorem partShortages_some {base : List PartInfo} {q : String} {ds : List DemandEntry}
    {inv : ℤ} {info : PartInfo} (hcv : currentInventory base q = some inv)
    (hfd : (base.find? fun r => decide (r.partNo = q)) = some info) :
    partShortages base q ds = processPart info ds inv true := by
  rw [partShortages_eq, hcv, hfd]

theorem partShortages_none_inv {base : List PartInfo} {q : String} {ds : List DemandEntry}
    (hcv : currentInventory base q = none) : partShortages base q ds = [] := by
  rw [partShortages_eq, hcv]

theorem partShortages_none_find {base : List PartInfo} {q : String} {ds : List DemandEntry}
    (hfd : (base.find? fun r => decide (r.partNo = q)) = none) :
    partShortages base q ds = [] := by
  rcases hcv : currentInventory base q with _ | inv
  · exact partShortages_none_inv hcv
  · rw [partShortages_eq, hcv, hfd]

theorem compute_shortages_filter (base : List PartInfo)
    (demand : List (String × DemandEntry)) (p : String) :
    ((compute_shortages base demand).filter fun ev => decide (ev.partNo = p)) =
      partShortages base p (entriesOf p (sortDemand demand)) := by
  have hother : ∀ q, q ≠ p →
      ((partShortages base q (entriesOf q (sortDemand demand))).filter
        fun ev => decide (ev.partNo = p)) = [] := by
    intro q hqp
    rcases hcv : currentInventory base q with _ | inv
    · rw [partShortages_none_inv hcv]; rfl
    rcases hfd : base.find? fun r => decide (r.partNo = q) with _ | info
    · rw [partShortages_none_find hfd]; rfl
    · rw [partShortages_some hcv hfd]
      refine List.filter_eq_nil_iff.2 fun ev hev => ?_
      simp only [decide_eq_true_eq]
      intro hevp
      have h1 := (mem_processPart hev).1
      have h2 := find?_partNo_eq hfd
      exact hqp (by rw [← h2, ← h1, hevp])
  have key :
      ((compute_shortages base demand).filter fun ev => decide (ev.partNo = p)) =
        if p ∈ firstKeys ((sortDemand demand).map Prod.fst) then
          ((partShortages base p (entriesOf p (sortDemand demand))).filter
            fun ev => decide (ev.partNo = p))
        else [] :=
    flatMap_groups (sortDemand demand) (partShortages base) p
      (firstKeys ((sortDemand demand).map Prod.fst)) (nodup_firstKeys _) hother
  rw [key]
  by_cases hp : p ∈ firstKeys ((sortDemand demand).map Prod.fst)
  · rw [if_pos hp]
    rcases hcv : currentInventory base p with _ | inv
    · rw [partShortages_none_inv hcv]; rfl
    rcases hfd : base.find? fun r => decide (r.partNo = p) with _ | info
    · rw [partShortages_none_find hfd]; rfl
    · rw [partShortages_some hcv hfd]
      refine List.filter_eq_self.2 fun ev hev => ?_
      simp only [decide_eq_true_eq]
      rw [(mem_processPart hev).1, find?_partNo_eq hfd]
  · rw [if_neg hp]
    rw [entriesOf_eq_nil (fun hm => hp (mem_firstKeys.2 hm))]
    rcases hcv : currentInventory base p with _ | inv
    · rw [partShortages_none_inv hcv]
    rcases hfd : base.find? fun r => decide (r.partNo = p) with _ | info
    · rw [partShortages_none_find hfd]
    · rw [partShortages_some hcv hfd]
      rfl

theorem processPart_emits_shortages {info : PartInfo}
    (hinvalid : validOpt info.pack = false) :
    ∀ (ds : List DemandEntry) (b : ℤ) (f : Bool) (pr : DemandEntry × ℤ),
      pr ∈ ds.zip (balances b ds) → 0 < max 0 (pr.1.qty - pr.2) →
      (pr.1.date, pr.1.qty, max 0 (pr.1.qty - pr.2), (none : Option ℤ)) ∈
        (processPart info ds b f).map
          fun x => (x.fechaEmbarque, x.demandaPzs, x.faltantePzs, x.contenedores) := by
  intro ds
  induction ds with
  | nil =>
    intro b f pr hpr _
    rw [balances_nil] at hpr
    simp at hpr
  | cons e rest ih =>
    intro b f pr hpr hshort
    rw [balances_cons, List.zip_cons_cons] at hpr
    rcases List.mem_cons.1 hpr with heq | hpr2
    · subst heq
      rw [processPart_cons_balanceStep, if_pos hshort]
      simp only [List.map_cons, mkShortageRow]
      rw [containersFor_of_invalid _ hinvalid]
      exact List.mem_cons_self ..
    · rw [processPart_cons_balanceStep]
      split_ifs with h
      · simp only [List.map_cons]
        exact List.mem_cons_of_mem _ (ih (balanceStep b e.qty) false pr hpr2 hshort)
      · exact ih (balanceStep b e.qty) f pr hpr2 hshort

/-! ### Concrete scenario data used by the witnesses (spec §8, Scenario A) -/

/-- Scenario A baseline: part `P1`, pack 50, on hand 120, rate 100, FORD. -/
def infoP1 : PartInfo :=
  { partNo := "P1", invFG := 120, pack := some 50, rate := 100,
    cliente := some "FORD", descripcion := "N/A" }

/-- Scenario A demand: 100 pieces on day 1, 80 on day 2, 40 on day 3. -/
def dsA : List DemandEntry := [⟨1, 100⟩, ⟨2, 80⟩, ⟨3, 40⟩]

/-- Scenario A demand in raw (part, entry) feed form, deliberately out of
date order. -/
def demandA : List (String × DemandEntry) :=
  [("P1", ⟨2, 80⟩), ("P1", ⟨1, 100⟩), ("P1", ⟨3, 40⟩)]

/-! ### The claims -/

/-- C1: for every part, `compute_shortages` replays that part's demand entries
in chronological date order against a running balance initialized to the
part's on-hand inventory; at each entry `shortage = max(0, demand - balance)`;
on a positive shortage it emits exactly one event and resets the balance to 0,
otherwise it emits nothing and decrements the balance by the demand. -/
theorem compute_shortages_per_part_replay
    (base : List PartInfo) (demand : List (String × DemandEntry)) (p : String)
    (info : PartInfo) (inv : ℤ) (e : DemandEntry) (rest : List DemandEntry)
    (b : ℤ) (f : Bool)
    (hinfo : (base.find? fun r => decide (r.partNo = p)) = some info)
    (hinv : currentInventory base p = some inv) :
    ((compute_shortages base demand).filter fun ev => decide (ev.partNo = p)) =
        processPart info (entriesOf p (sortDemand demand)) inv true
      ∧ (entriesOf p (sortDemand demand)).Pairwise (fun a b => a.date ≤ b.date)
      ∧ (0 < max 0 (e.qty - b) →
          processPart info (e :: rest) b f =
            mkShortageRow info e b (max 0 (e.qty - b)) f :: processPart info rest 0 false)
      ∧ (max 0 (e.qty - b) = 0 →
          processPart info (e :: rest) b f = processPart info rest (b - e.qty) f) := by
  refine ⟨?_, entriesOf_sorted p demand, ?_, ?_⟩
  · rw [compute_shortages_filter, partShortages_some hinv hinfo]
  · intro h
    rw [processPart, if_pos h]
  · intro h
    rw [processPart, if_neg (by omega : ¬ 0 < max 0 (e.qty - b))]

/-- Witness for C1 on Scenario A data. -/
theorem compute_shortages_per_part_replay_witness :
    ((compute_shortages [infoP1] demandA).filter fun ev => decide (ev.partNo = "P1")) =
        processPart infoP1 (entriesOf "P1" (sortDemand demandA)) 120 true
      ∧ (entriesOf "P1" (sortDemand demandA)).Pairwise (fun a b => a.date ≤ b.date)
      ∧ (0 < max 0 ((80 : ℤ) - 20) →
          processPart infoP1 [⟨2, 80⟩, ⟨3, 40⟩] 20 true =
            mkShortageRow infoP1 ⟨2, 80⟩ 20 (max 0 ((80 : ℤ) - 20)) true ::
              processPart infoP1 [⟨3, 40⟩] 0 false)
      ∧ (max 0 ((80 : ℤ) - 20) = 0 →
          processPart infoP1 [⟨2, 80⟩, ⟨3, 40⟩] 20 true =
            processPart infoP1 [⟨3, 40⟩] (20 - 80) true) :=
  compute_shortages_per_part_replay [infoP1] demandA "P1" infoP1 120 ⟨2, 80⟩ [⟨3, 40⟩]
    20 true (by decide) (by decide)

/-- C2: every event emitted by `compute_shortages` whose part has a valid pack
(non-null, positive) carries
`containersRequired = ceil(shortagePieces / pack)`, hence
`containersRequired * pack ≥ shortagePieces`. -/
theorem shortage_containers_ceil (base : List PartInfo)
    (demand : List (String × DemandEntry)) (ev : ShortageRow)
    (info : PartInfo) (inv p : ℤ)
    (hinfo : (base.find? fun r => decide (r.partNo = ev.partNo)) = some info)
    (hinv : currentInventory base ev.partNo = some inv)
    (hev : ev ∈ compute_shortages base demand)
    (hp : info.pack = some p) (hppos : 0 < p) :
    ev.contenedores = some (intCeilDiv ev.faltantePzs p) ∧
    (intCeilDiv ev.faltantePzs p : ℤ) = ⌈(ev.faltantePzs : ℚ) / (p : ℚ)⌉ ∧
    ev.faltantePzs ≤ intCeilDiv ev.faltantePzs p * p := by
  have h0 : ev ∈ (compute_shortages base demand).filter
      fun x => decide (x.partNo = ev.partNo) :=
    List.mem_filter.2 ⟨hev, by simp⟩
  rw [compute_shortages_filter, partShortages_some hinv hinfo] at h0
  have h1 := (mem_processPart h0).2.2
  rw [hp, containersFor_of_pos _ hppos] at h1
  exact ⟨h1, intCeilDiv_eq_ceil _ hppos, intCeilDiv_mul_ge _ hppos⟩

/-- Witness for C2 on the day-2 event of Scenario A (shortage 60, pack 50,
2 containers). -/
theorem shortage_containers_ceil_witness :
    (some 2 : Option ℤ) = some (intCeilDiv 60 50) ∧
    (intCeilDiv 60 50 : ℤ) = ⌈((60 : ℤ) : ℚ) / ((50 : ℤ) : ℚ)⌉ ∧
    (60 : ℤ) ≤ intCeilDiv 60 50 * 50 :=
  shortage_containers_ceil [infoP1] demandA
    { partNo := "P1", fechaEmbarque := 2, inventarioActual := 20, demandaPzs := 80,
      faltantePzs := 60, pack := some 50, contenedores := some 2,
      cliente := some "FORD", descripcion := "N/A", rate := 100,
      capacidadTurnoCont := 0, esPrimerFaltante := true, siguienteEmbarque := false }
    infoP1 120 50 (by decide) (by decide) (by decide) rfl (by decide)

/-- C7: with non-negative initial inventory and non-negative demands, every
value of the running balance is non-negative; and the replay loop advances its
balance exactly by `balanceStep` (reset to 0 after a shortage, else decrement). -/
theorem balance_nonneg (b : ℤ) (ds : List DemandEntry) (x : ℤ) (info : PartInfo)
    (f : Bool) (e : DemandEntry) (rest : List DemandEntry)
    (hb : 0 ≤ b) (hq : ∀ d ∈ ds, 0 ≤ d.qty) (hx : x ∈ balances b ds) :
    0 ≤ x ∧
    processPart info (e :: rest) b f =
      (if 0 < max 0 (e.qty - b) then
        mkShortageRow info e b (max 0 (e.qty - b)) f ::
          processPart info rest (balanceStep b e.qty) false
      else processPart info rest (balanceStep b e.qty) f) :=
  ⟨balances_nonneg hb hq x hx, processPart_cons_balanceStep info e rest b f⟩

/-- Witness for C7 on Scenario A (balance trace 120, 20, 0, 0). -/
theorem balance_nonneg_witness :
    (0 : ℤ) ≤ 20 ∧
    processPart infoP1 (⟨1, 100⟩ :: [⟨2, 80⟩, ⟨3, 40⟩]) 120 true =
      (if 0 < max 0 ((100 : ℤ) - 120) then
        mkShortageRow infoP1 ⟨1, 100⟩ 120 (max 0 ((100 : ℤ) - 120)) true ::
          processPart infoP1 [⟨2, 80⟩, ⟨3, 40⟩] (balanceStep 120 100) false
      else processPart infoP1 [⟨2, 80⟩, ⟨3, 40⟩] (balanceStep 120 100) true) :=
  balance_nonneg 120 dsA 20 infoP1 true ⟨1, 100⟩ [⟨2, 80⟩, ⟨3, 40⟩]
    (by decide) (by decide) (by decide)

/-- C6: a part whose derived pack is invalid (for example `stdpack_max` null
and `stdpack_min` 0 derive a null pack) gets `contenedores = none` on every
event `compute_shortages` emits for it — never `some 0` — and an event is
still present in the `compute_shortages` output for every one of the part's
chronological demand entries whose shortage against the running balance is
positive. -/
theorem invalid_pack_null_containers (base : List PartInfo)
    (demand : List (String × DemandEntry)) (p : String) (info : PartInfo)
    (inv : ℤ) (ev : ShortageRow) (pr : DemandEntry × ℤ)
    (hinfo : (base.find? fun r => decide (r.partNo = p)) = some info)
    (hinv : currentInventory base p = some inv)
    (hinvalid : validOpt info.pack = false)
    (hev : ev ∈ compute_shortages base demand) (hevp : ev.partNo = p)
    (hpr : pr ∈ (entriesOf p (sortDemand demand)).zip
      (balances inv (entriesOf p (sortDemand demand))))
    (hshort : 0 < max 0 (pr.1.qty - pr.2)) :
    derivePack (some 0) none = none ∧
    ev.contenedores = none ∧ ev.contenedores ≠ some 0 ∧
    (pr.1.date, pr.1.qty, max 0 (pr.1.qty - pr.2), (none : Option ℤ)) ∈
      (compute_shortages base demand).map
        fun x => (x.fechaEmbarque, x.demandaPzs, x.faltantePzs, x.contenedores) := by
  have hfil := compute_shortages_filter base demand p
  rw [partShortages_some hinv hinfo] at hfil
  have h0 : ev ∈ (compute_shortages base demand).filter
      fun x => decide (x.partNo = p) :=
    List.mem_filter.2 ⟨hev, by simp [hevp]⟩
  rw [hfil] at h0
  have hcont : ev.contenedores = none := by
    rw [(mem_processPart h0).2.2]
    exact containersFor_of_invalid _ hinvalid
  have hmem := processPart_emits_shortages hinvalid
    (entriesOf p (sortDemand demand)) inv true pr hpr hshort
  rw [← hfil] at hmem
  have hsub : (((compute_shortages base demand).filter
        fun x => decide (x.partNo = p)).map
      fun x => (x.fechaEmbarque, x.demandaPzs, x.faltantePzs, x.contenedores)).Sublist
      ((compute_shortages base demand).map
        fun x => (x.fechaEmbarque, x.demandaPzs, x.faltantePzs, x.contenedores)) :=
    ((compute_shortages base demand).filter_sublist).map _
  exact ⟨rfl, hcont, by simp [hcont], hsub.subset hmem⟩

/-- Witness for C6: pack-less part `P2` with demand 10 against inventory 0. -/
theorem invalid_pack_null_containers_witness :
    derivePack (some 0) none = none ∧
    (none : Option ℤ) = none ∧ (none : Option ℤ) ≠ some 0 ∧
    ((1 : ℕ), (10 : ℤ), max 0 ((10 : ℤ) - 0), (none : Option ℤ)) ∈
      (compute_shortages
        [{ partNo := "P2", invFG := 0, pack := none, rate := 100,
           cliente := none, descripcion := "N/A" }] [("P2", ⟨1, 10⟩)]).map
        fun x => (x.fechaEmbarque, x.demandaPzs, x.faltantePzs, x.contenedores) :=
  invalid_pack_null_containers
    [{ partNo := "P2", invFG := 0, pack := none, rate := 100,
       cliente := none, descripcion := "N/A" }]
    [("P2", ⟨1, 10⟩)] "P2"
    { partNo := "P2", invFG := 0, pack := none, rate := 100,
      cliente := none, descripcion := "N/A" } 0
    { partNo := "P2", fechaEmbarque := 1, inventarioActual := 0, demandaPzs := 10,
      faltantePzs := 10, pack := none, contenedores := none, cliente := none,
      descripcion := "N/A", rate := 100, capacidadTurnoCont := 0,
      esPrimerFaltante := true, siguienteEmbarque := false }
    (⟨1, 10⟩, 0) (by decide) (by decide) rfl (by decide) (by decide) (by decide)
    (by decide)

/-- C3: per part, among all events of one `compute_shortages` run at most one
has `Es_primer_faltante = true`, and a flagged event has the earliest shipment
date among the part's emitted events. -/
theorem first_shortage_unique_earliest (base : List PartInfo)
    (demand : List (String × DemandEntry)) (p : String) :
    ((compute_shortages base demand).countP
        fun ev => ev.esPrimerFaltante && decide (ev.partNo = p)) ≤ 1 ∧
    ∀ ev ∈ compute_shortages base demand, ev.partNo = p → ev.esPrimerFaltante = true →
      ∀ ev2 ∈ compute_shortages base demand, ev2.partNo = p →
        ev.fechaEmbarque ≤ ev2.fechaEmbarque := by
  have hfil := compute_shortages_filter base demand p
  constructor
  · have hc : ((compute_shortages base demand).filter
        fun ev => decide (ev.partNo = p)).countP (fun ev => ev.esPrimerFaltante) =
        (compute_shortages base demand).countP
          fun ev => ev.esPrimerFaltante && decide (ev.partNo = p) :=
      List.countP_filter ..
    rw [← hc, hfil]
    rcases hcv : currentInventory base p with _ | inv
    · rw [partShortages_none_inv hcv]
      simp
    rcases hfd : base.find? fun r => decide (r.partNo = p) with _ | info
    · rw [partShortages_none_find hfd]
      simp
    · rw [partShortages_some hcv hfd]
      exact processPart_countP_flag ..
  · intro ev hev hevp hflag ev2 hev2 hev2p
    have h1 : ev ∈ (compute_shortages base demand).filter
        fun x => decide (x.partNo = p) :=
      List.mem_filter.2 ⟨hev, by simp [hevp]⟩
    have h2 : ev2 ∈ (compute_shortages base demand).filter
        fun x => decide (x.partNo = p) :=
      List.mem_filter.2 ⟨hev2, by simp [hev2p]⟩
    rw [hfil] at h1 h2
    rcases hcv : currentInventory base p with _ | inv
    · rw [partShortages_none_inv hcv] at h1
      simp at h1
    rcases hfd : base.find? fun r => decide (r.partNo = p) with _ | info
    · rw [partShortages_none_find hfd] at h1
      simp at h1
    · rw [partShortages_some hcv hfd] at h1 h2
      rcases processPart_true_head info (entriesOf p (sortDemand demand)) inv with
        hnil | ⟨evh, tail, heq, hflagh, htail⟩
      · rw [hnil] at h1
        simp at h1
      · rw [heq] at h1 h2
        have hpw : (evh :: tail).Pairwise
            fun x y => x.fechaEmbarque ≤ y.fechaEmbarque := by
          rw [← heq]
          exact processPart_dates_pairwise (entriesOf_sorted p demand)
        have hev_eq : ev = evh := by
          rcases List.mem_cons.1 h1 with rfl | h1t
          · rfl
          · have hf := htail ev h1t
            rw [hflag] at hf
            simp at hf
        subst hev_eq
        rcases List.mem_cons.1 h2 with rfl | h2t
        · exact Nat.le_refl _
        · exact (List.pairwise_cons.1 hpw).1 ev2 h2t

/-- C4: `build_priority` returns the same event set ordered by the
lexicographic key (first-shortage flag descending, first-appearance part rank
ascending, customer priority rank ascending, shipment date ascending), where
the customer rank is 0 for names containing "FORD", 1 for "MAGNA", 2
otherwise, and 999 for missing/empty customers. -/
theorem build_priority_order (rows : List ShortageRow) :
    List.Perm (build_priority rows) rows ∧
    (build_priority rows).Pairwise
      (fun a b => keyLE (prioKey rows a) (prioKey rows b)) ∧
    customer_priority none = 999 ∧ customer_priority (some "") = 999 ∧
    customer_priority (some "Ford Motor Co") = 0 ∧
    customer_priority (some " magna exteriors ") = 1 ∧
    customer_priority (some "ACME") = 2 := by
  refine ⟨List.perm_insertionSort _ _, ?_, by decide, by decide, by decide,
    by decide, by decide⟩
  exact List.sorted_insertionSort (prioRel rows) rows

/-- C5: the `build_priority` sort is stable: restricted to any fixed value of
the four-part sort key, the output lists exactly the input's rows in their
original relative order. -/
theorem build_priority_stable (rows : List ShortageRow) (k : ℕ × ℕ × ℕ × ℕ) :
    ((build_priority rows).filter fun r => decide (prioKey rows r = k)) =
      rows.filter fun r => decide (prioKey rows r = k) := by
  have hperm : List.Perm
      ((build_priority rows).filter fun r => decide (prioKey rows r = k))
      (rows.filter fun r => decide (prioKey rows r = k)) :=
    (List.perm_insertionSort (prioRel rows) rows).filter _
  have hc : (rows.filter fun r => decide (prioKey rows r = k)).Pairwise
      (prioRel rows) := by
    refine List.pairwise_of_forall_mem_list fun a ha b hb => ?_
    have ha2 := (List.mem_filter.1 ha).2
    have hb2 := (List.mem_filter.1 hb).2
    simp only [decide_eq_true_eq] at ha2 hb2
    unfold prioRel
    rw [ha2, hb2]
    exact keyLE_refl k
  have hsub : (rows.filter fun r => decide (prioKey rows r = k)).Sublist
      (build_priority rows) :=
    List.sublist_insertionSort hc (rows.filter_sublist)
  have hsub2 : (rows.filter fun r => decide (prioKey rows r = k)).Sublist
      ((build_priority rows).filter fun r => decide (prioKey rows r = k)) := by
    have hstep := hsub.filter fun r => decide (prioKey rows r = k)
    have hid : ((rows.filter fun r => decide (prioKey rows r = k)).filter
        fun r => decide (prioKey rows r = k)) =
        rows.filter fun r => decide (prioKey rows r = k) :=
      List.filter_eq_self.2 fun a ha => (List.mem_filter.1 ha).2
    rwa [hid] at hstep
  exact (List.Sublist.eq_of_length hsub2 hperm.length_eq.symm).symm

/-- C8 counterexample: with demand rows `("P", null), ("P", 5), ("P", 7)`,
pandas `groupby.first` yields 5 — the first non-null value — while the first
matching row's inventory value is null, refuting "the first matching row's
value"; the sum 12 is not produced either. -/
theorem invfg_first_nonnull_cex :
    invfg_by_part [⟨"P", none⟩, ⟨"P", some 5⟩, ⟨"P", some 7⟩] "P" = some 5 ∧
    (([⟨"P", none⟩, ⟨"P", some 5⟩, ⟨"P", some 7⟩] : List PrpRow).filter
        fun x => decide (x.partNo = "P")).head? = some ⟨"P", none⟩ ∧
    (some (5 : ℤ) ≠ (none : Option ℤ)) ∧ ((5 : ℤ) ≠ 0 + 5 + 7) := by
  decide

/-- C8 (amended): the per-part inventory is the first non-null value among the
part's rows — in particular it equals the first matching row's value whenever
that value is non-null — and is never a sum. -/
theorem invfg_first_row_when_nonnull (rows : List PrpRow) (p : String)
    (r : PrpRow) (v : ℤ)
    (h1 : (rows.filter fun x => decide (x.partNo = p)).head? = some r)
    (h2 : r.invFG = some v) :
    invfg_by_part rows p = some v := by
  unfold invfg_by_part
  rcases hl : rows.filter fun x => decide (x.partNo = p) with _ | ⟨r0, rest⟩
  · rw [hl] at h1
    simp at h1
  · rw [hl] at h1
    simp only [List.head?_cons, Option.some.injEq] at h1
    subst h1
    rw [hl]
    simp [List.filterMap_cons, h2]

/-- Witness for C8 (amended). -/
theorem invfg_first_row_when_nonnull_witness :
    invfg_by_part [⟨"Q", some 3⟩, ⟨"P", some 4⟩, ⟨"P", some 9⟩] "P" = some 4 :=
  invfg_first_row_when_nonnull [⟨"Q", some 3⟩, ⟨"P", some 4⟩, ⟨"P", some 9⟩] "P"
    ⟨"P", some 4⟩ 4 (by decide) rfl

/-- C9 counterexample: the stored part numbers are stripped but not
uppercased: raw `" ford "` is stored as `"ford"` by both loaders, while the
claimed strip-and-uppercase normalization would store `"FORD"`. -/
theorem partno_not_uppercased_cex :
    load_ref [⟨" ford ", none, none⟩] = [⟨"ford", none, true⟩] ∧
    load_prp [⟨" ford ", some 1⟩] = [⟨"ford", some 1⟩] ∧
    pyUpper (pyStrip " ford ") = "FORD" ∧ ("ford" : String) ≠ "FORD" := by
  decide

/-- C9 (amended): both loaders store the raw part-number text with surrounding
whitespace stripped and case preserved (no uppercasing). -/
theorem partno_stripped_only (rows : List RefRow) (prows : List PrpRow) :
    ((load_ref rows).map fun r => r.partno) =
        (rows.map fun r => pyStrip r.partno) ∧
    ((load_prp prows).map fun r => r.partNo) =
        (prows.map fun r => pyStrip r.partNo) := by
  constructor <;> simp [load_ref, load_prp]

/-- C10: `add_part` appends and returns `True` even when a row with the same
part number already exists, and `get_part` afterwards still returns the first
(oldest) matching row of the original data. -/
theorem add_part_duplicate_get_first (s : ReferenceData) (r : RefDataRow)
    (h : ∃ r0 ∈ s.data, r0.part_number = r.part_number) :
    (s.add_part r).1 = true ∧
    (s.add_part r).2.data = s.data ++ [r] ∧
    (s.add_part r).2.get_part r.part_number = s.get_part r.part_number ∧
    (s.add_part r).2.get_part r.part_number =
      s.data.find? fun x => decide (x.part_number = r.part_number) := by
  have hmain : (s.add_part r).2.get_part r.part_number =
      s.data.find? fun x => decide (x.part_number = r.part_number) := by
    unfold ReferenceData.get_part ReferenceData.add_part
    rw [List.find?_append]
    have hsome : (s.data.find? fun x => decide (x.part_number = r.part_number)).isSome := by
      rw [List.find?_isSome]
      rcases h with ⟨r0, hr0, hr0e⟩
      exact ⟨r0, hr0, by simp [hr0e]⟩
    rcases hs : s.data.find? fun x => decide (x.part_number = r.part_number) with _ | r1
    · rw [hs] at hsome
      simp at hsome
    · rw [hs]
      rfl
  exact ⟨rfl, rfl, hmain, hmain⟩

/-- Witness for C10: adding a duplicate of part `"A"`. -/
theorem add_part_duplicate_get_first_witness :
    ((⟨[⟨"A", 1, 1, "", "", "", "", ""⟩]⟩ : ReferenceData).add_part
        ⟨"A", 2, 2, "", "", "", "", ""⟩).1 = true ∧
    ((⟨[⟨"A", 1, 1, "", "", "", "", ""⟩]⟩ : ReferenceData).add_part
        ⟨"A", 2, 2, "", "", "", "", ""⟩).2.data =
      [⟨"A", 1, 1, "", "", "", "", ""⟩] ++ [⟨"A", 2, 2, "", "", "", "", ""⟩] ∧
    ((⟨[⟨"A", 1, 1, "", "", "", "", ""⟩]⟩ : ReferenceData).add_part
        ⟨"A", 2, 2, "", "", "", "", ""⟩).2.get_part "A" =
      (⟨[⟨"A", 1, 1, "", "", "", "", ""⟩]⟩ : ReferenceData).get_part "A" ∧
    ((⟨[⟨"A", 1, 1, "", "", "", "", ""⟩]⟩ : ReferenceData).add_part
        ⟨"A", 2, 2, "", "", "", "", ""⟩).2.get_part "A" =
      ([⟨"A", 1, 1, "", "", "", "", ""⟩] : List RefDataRow).find?
        fun x => decide (x.part_number = "A") :=
  add_part_duplicate_get_first ⟨[⟨"A", 1, 1, "", "", "", "", ""⟩]⟩
    ⟨"A", 2, 2, "", "", "", "", ""⟩ (by decide)
